import Mathlib

/-!
Verification development for a PPM (binary raster, magic "P6") image tool.

The program consists of two translation units:
  * ppmio.cpp: the primary codec (readPPM / writePPM) and the transform
    pipeline (grayscale, invert, contrast, blur, mirror, compress);
  * print_ppm.cpp: an alternate reader (loadPPM) used for inspection.

The embedding below models files as lists of byte values (Nat, each < 256)
and translates each C++ function into an executable Lean function.  C++
streams are modelled explicitly: formatted extraction skips whitespace,
getline splits at a newline byte (10), and failed extractions follow the
C++11 rules (a conversion failure stores 0; a sentry failure leaves the
target unmodified).  Out-of-bounds vector accesses and reads of
indeterminate values (undefined behaviour in the C++) are modelled by
Option, with none standing for the undefined outcome.
-/

/-- One RGB pixel: three 8-bit unsigned channels (ppmio.cpp, struct RGB).
    Channels are Nats; a value is meaningful when < 256, and every
    narrowing assignment in the source is modelled with an explicit
    mod 256. -/
structure RGB where
  r : Nat
  g : Nat
  b : Nat
deriving DecidableEq

/-- The byte predicate of C isspace in the default locale:
    space (32), tab (9), newline (10), vertical tab (11),
    form feed (12), carriage return (13). -/
def isspaceByte (c : Nat) : Bool :=
  c == 32 || (9 ≤ c && c ≤ 13)

/-- A decimal digit byte (48..57). -/
def isDigitByte (c : Nat) : Bool :=
  48 ≤ c && c ≤ 57

/-- Drop the longest leading run of whitespace bytes (the stream-level
    whitespace skipping done by formatted extraction, and the explicit
    `while (std::isspace(file.peek())) file.get();` loop of readPPM). -/
def skipWs : List Nat → List Nat
  | [] => []
  | c :: cs => if isspaceByte c then skipWs cs else c :: cs

/-- Take the longest leading run of non-whitespace bytes (the token part
    of `file >> magic`). -/
def takeToken : List Nat → List Nat × List Nat
  | [] => ([], [])
  | c :: cs =>
    if isspaceByte c then ([], c :: cs)
    else
      let t := takeToken cs
      (c :: t.1, t.2)

/-- `file >> magic` on a string: skip whitespace, then read a
    whitespace-delimited token (empty at end of input, leaving the C++
    string default-constructed empty). -/
def readToken (s : List Nat) : List Nat × List Nat :=
  takeToken (skipWs s)

/-- `std::getline`: split the input at the first newline byte, consuming
    it.  Reaching end of input before a newline yields the remaining
    bytes as the line. -/
def splitAtNewline : List Nat → List Nat × List Nat
  | [] => ([], [])
  | c :: cs =>
    if c = 10 then ([], cs)
    else
      let l := splitAtNewline cs
      (c :: l.1, l.2)

/-- Parse a nonempty run of leading decimal digits (the stage-2/3 digit
    accumulation of num_get). -/
def parseNatAux (l : List Nat) : Option (Nat × List Nat) :=
  let ds := l.takeWhile isDigitByte
  if ds = [] then none
  else some (ds.foldl (fun a d => a * 10 + (d - 48)) 0, l.dropWhile isDigitByte)

/-- Parse an optionally signed decimal integer at the head of the input
    (base-10 istream extraction; the value is modelled unbounded, i.e.
    dimensions are assumed not to overflow int). -/
def parseIntPfx (l : List Nat) : Option (Int × List Nat) :=
  match l with
  | [] => none
  | c :: rest =>
    if c = 45 then (parseNatAux rest).map fun p => (-(p.1 : Int), p.2)
    else if c = 43 then (parseNatAux rest).map fun p => ((p.1 : Int), p.2)
    else (parseNatAux l).map fun p => ((p.1 : Int), p.2)

/-- `istringstream iss(line); iss >> v` for an int: skip whitespace then
    parse a signed decimal integer. -/
def parseIntFrom (l : List Nat) : Option (Int × List Nat) :=
  parseIntPfx (skipWs l)

/-- `iss >> width >> height`: two consecutive int extractions from one
    line; anything after the second integer on the line is ignored. -/
def parseTwoInts (line : List Nat) : Option (Int × Int) :=
  match parseIntFrom line with
  | none => none
  | some (a, rest) =>
    match parseIntFrom rest with
    | none => none
    | some (b, _) => some (a, b)

/-- The width/height getline loop of readPPM (ppmio.cpp lines 37-44):
    repeatedly read a line; skip lines that are empty or start with '#';
    stop at the first line that yields two integers.  The fuel argument
    only bounds the recursion; each iteration consumes at least one byte,
    so fuel (length + 1) is never exhausted before the input is. -/
def parseDimsCore : Nat → List Nat → Option (Int × Int × List Nat)
  | 0, _ => none
  | _, [] => none
  | fuel + 1, c :: cs =>
    let pr := splitAtNewline (c :: cs)
    if pr.1 = [] then parseDimsCore fuel pr.2
    else if pr.1.head? = some 35 then parseDimsCore fuel pr.2
    else
      match parseTwoInts pr.1 with
      | some wh => some (wh.1, wh.2, pr.2)
      | none => parseDimsCore fuel pr.2

def parseDims (s : List Nat) : Option (Int × Int × List Nat) :=
  parseDimsCore (s.length + 1) s

/-- The max-value getline loop of readPPM (ppmio.cpp lines 47-54): same
    comment-skipping scheme, stopping at the first line that yields one
    integer. -/
def parseMaxValCore : Nat → List Nat → Option (Int × List Nat)
  | 0, _ => none
  | _, [] => none
  | fuel + 1, c :: cs =>
    let pr := splitAtNewline (c :: cs)
    if pr.1 = [] then parseMaxValCore fuel pr.2
    else if pr.1.head? = some 35 then parseMaxValCore fuel pr.2
    else
      match parseIntFrom pr.1 with
      | some v => some (v.1, pr.2)
      | none => parseMaxValCore fuel pr.2

def parseMaxVal (s : List Nat) : Option (Int × List Nat) :=
  parseMaxValCore (s.length + 1) s

/-- Turn a flat byte list into pixels, three bytes per pixel (the
    reinterpret_cast view of a row in readPPM). -/
def rowOfBytes : List Nat → List RGB
  | r :: g :: b :: rest => ⟨r, g, b⟩ :: rowOfBytes rest
  | _ => []

/-- The error exits of readPPM, by kind (each is a runtime_error throw in
    the C++; the failure to open the file is outside this model, which
    starts from the opened byte stream). -/
inductive ReadErr where
  | invalidMagic
  | headerError
  | maxValError
  | unsupportedMaxVal
  | negativeDim
  | truncatedRow (i : Nat)
deriving DecidableEq

/-- The row-reading loop of readPPM (ppmio.cpp lines 72-81): row i needs
    width*3 raw bytes; if fewer are available, gcount falls short and the
    function throws naming that row. -/
def readRows (w : Nat) : Nat → Nat → List Nat → Except ReadErr (List (List RGB))
  | _, 0, _ => .ok []
  | i, k + 1, s =>
    if s.length < w * 3 then .error (.truncatedRow i)
    else
      match readRows w (i + 1) k (s.drop (w * 3)) with
      | .ok rows => .ok (rowOfBytes (s.take (w * 3)) :: rows)
      | .error e => .error e

/-- readPPM (ppmio.cpp lines 18-96) on the opened byte stream:
    read the magic token ("P6" required), parse width/height and the max
    value with comment-skipping getline loops, require max 255, consume
    the run of whitespace bytes before the binary data, then read
    height rows of width*3 raw bytes.  A negative parsed dimension makes
    the vector allocation throw (modelled as negativeDim). -/
def readPPM (s : List Nat) : Except ReadErr (List (List RGB)) :=
  let m := readToken s
  if m.1 ≠ [80, 54] then .error .invalidMagic
  else
    match parseDims m.2 with
    | none => .error .headerError
    | some (w, h, s2) =>
      match parseMaxVal s2 with
      | none => .error .maxValError
      | some (mv, s3) =>
        if mv ≠ 255 then .error .unsupportedMaxVal
        else if w < 0 ∨ h < 0 then .error .negativeDim
        else readRows w.toNat 0 h.toNat (skipWs s3)

/-- Decimal digit bytes of n, most significant first, via fuel-bounded
    division (fuel n+1 always suffices); this is `file << n` for a
    nonnegative int. -/
def natDigitsCore : Nat → Nat → List Nat → List Nat
  | 0, _, acc => acc
  | fuel + 1, n, acc =>
    if n < 10 then (48 + n) :: acc
    else natDigitsCore fuel (n / 10) ((48 + n % 10) :: acc)

def natDigits (n : Nat) : List Nat :=
  natDigitsCore (n + 1) n []

/-- The header writePPM emits (ppmio.cpp line 112):
    "P6\n" ++ width ++ " " ++ height ++ "\n255\n". -/
def ppmHeader (w h : Nat) : List Nat :=
  [80, 54, 10] ++ natDigits w ++ [32] ++ natDigits h ++ [10, 50, 53, 53, 10]

/-- One row of raw pixel bytes as written by writePPM (for a rectangular
    buffer, `file.write(image[i].data(), width*3)` writes exactly the
    pixels of the row, three bytes each; channels are meaningful when
    < 256). -/
def rowBytes (row : List RGB) : List Nat :=
  row.flatMap fun p => [p.r, p.g, p.b]

def pixelBytes (image : List (List RGB)) : List Nat :=
  image.flatMap rowBytes

/-- The error exits of writePPM, by kind. -/
inductive WriteErr where
  | cannotOpen
  | emptyImage
  | sizeMismatch
deriving DecidableEq

/-- writePPM (ppmio.cpp lines 98-153).  The file system at the output
    path is modelled as `Option (List Nat)` (none: no file).  The
    ofstream constructor runs first and, when the open succeeds, creates
    or truncates the file to empty; only then are the dimensions checked
    ("Empty image data" on a zero dimension).  On the success path the
    header and the rows are written, the stream is closed, and the file
    size is re-checked against width*height*3 + 10.  The returned pair is
    (result carrying the written bytes, file state at the path). -/
def writePPM (openOk : Bool) (image : List (List RGB)) (fs : Option (List Nat)) :
    Except WriteErr (List Nat) × Option (List Nat) :=
  if !openOk then (.error .cannotOpen, fs)
  else
    let height := image.length
    let width := if height > 0 then (image.headD []).length else 0
    if width = 0 ∨ height = 0 then (.error .emptyImage, some [])
    else
      let out := ppmHeader width height ++ pixelBytes image
      if out.length < width * height * 3 + 10 then (.error .sizeMismatch, some out)
      else (.ok out, some out)

/-- Pixel access `img[i][j]` for in-range indices (the defaults are never
    reached under the rectangularity hypotheses of the theorems below;
    out-of-range vector indexing in the C++ would be undefined). -/
def px (img : List (List RGB)) (i j : Nat) : RGB :=
  (img.getD i []).getD j ⟨0, 0, 0⟩

/-- An indexed map used to model in-place per-element updates: the list
    structure (number of rows, length of each row) is preserved exactly. -/
def idxMapFrom (f : Nat → α → β) : Nat → List α → List β
  | _, [] => []
  | i, a :: as => f i a :: idxMapFrom f (i + 1) as

def idxMap (f : Nat → α → β) (l : List α) : List β :=
  idxMapFrom f 0 l

/-- grayscale (ppmio.cpp lines 157-167): every channel becomes
    (r+g+b)/3; the assignment to an unsigned char is the mod-256
    narrowing (an identity when the channels are < 256). -/
def grayscale (image : List (List RGB)) : List (List RGB) :=
  image.map fun row => row.map fun p =>
    let gray := (p.r + p.g + p.b) / 3 % 256
    ⟨gray, gray, gray⟩

/-- invert (ppmio.cpp lines 170-181): each channel v becomes 255 - v in
    int arithmetic, narrowed mod 256 on assignment (so 255 - v exactly
    when v < 256). -/
def invert (image : List (List RGB)) : List (List RGB) :=
  image.map fun row => row.map fun p =>
    ⟨(((255 : Int) - p.r) % 256).toNat,
     (((255 : Int) - p.g) % 256).toNat,
     (((255 : Int) - p.b) % 256).toNat⟩

/-- One channel of contrast (ppmio.cpp lines 184-195) at the pipeline
    factor 1.2f: min(255, max(0, (int)((v - 128) * factor + 128))).
    Int.tdiv truncates toward zero as the float-to-int cast does; the
    float factor 1.2f and the binary32 arithmetic are modelled by the
    exact ratio 6/5, which differs from the float result on a few channel
    values (float rounding).  No claim below depends on the per-channel
    value of contrast, only on the shape of its result, which is
    independent of the channel map. -/
def contrastChan (v : Nat) : Nat :=
  (min 255 (max 0 (Int.tdiv (((v : Int) - 128) * 6 + 640) 5))).toNat

def contrast (image : List (List RGB)) : List (List RGB) :=
  image.map fun row => row.map fun p =>
    ⟨contrastChan p.r, contrastChan p.g, contrastChan p.b⟩

/-- `image[0].size()` as read unconditionally by blur, mirror and
    compress: on a buffer with zero rows the access is out of bounds
    (undefined behaviour), modelled as none. -/
def rowZeroLen : List (List RGB) → Option Nat
  | [] => none
  | row :: _ => some row.length

/-- The 3x3 per-channel sum over the snapshot, centred at (i, j) with
    1 ≤ i and 1 ≤ j (the two inner loops of blur, x then y from -1 to 1). -/
def box3sum (f : RGB → Nat) (t : List (List RGB)) (i j : Nat) : Nat :=
  f (px t (i - 1) (j - 1)) + f (px t (i - 1) j) + f (px t (i - 1) (j + 1)) +
  f (px t i (j - 1)) + f (px t i j) + f (px t i (j + 1)) +
  f (px t (i + 1) (j - 1)) + f (px t (i + 1) j) + f (px t (i + 1) (j + 1))

/-- blur (ppmio.cpp lines 198-223): copy the buffer into temp, then for
    every interior position (1 ≤ i < height-1, 1 ≤ j < width-1) store the
    per-channel 3x3 sum over temp divided by 9 (int division, narrowed
    mod 256 on assignment); all other positions keep their pixel.  The
    in-place row updates preserve every row length. -/
def blur (image : List (List RGB)) : Option (List (List RGB)) :=
  match rowZeroLen image with
  | none => none
  | some width =>
    let temp := image
    let height := image.length
    some (idxMap (fun i row => idxMap (fun j p =>
      if 1 ≤ i ∧ i + 1 < height ∧ 1 ≤ j ∧ j + 1 < width then
        ⟨box3sum RGB.r temp i j / 9 % 256,
         box3sum RGB.g temp i j / 9 % 256,
         box3sum RGB.b temp i j / 9 % 256⟩
      else p) row) image)

/-- mirror (ppmio.cpp lines 226-266): reverses each row in place with
    std::reverse.  Before and after doing so, the diagnostic print loop
    `for (int j = width - 5; j < width; ++j)` reads image[0][j]; when
    width < 5 the loop starts at a negative j and the accesses are out of
    bounds (undefined behaviour, modelled as none). -/
def mirror (image : List (List RGB)) : Option (List (List RGB)) :=
  match rowZeroLen image with
  | none => none
  | some width =>
    if width < 5 then none
    else some (image.map List.reverse)

/-- compress (ppmio.cpp lines 270-295): build a new buffer of
    height/2 by width/2 whose pixel (i, j) is image[2i+1][2j+1], then
    replace the buffer with it. -/
def compress (image : List (List RGB)) : Option (List (List RGB)) :=
  match rowZeroLen image with
  | none => none
  | some width =>
    let height := image.length
    some ((List.range (height / 2)).map fun i =>
      (List.range (width / 2)).map fun j => px image (2 * i + 1) (2 * j + 1))

/-!  The alternate reader, print_ppm.cpp.  Its RGB struct has int
     channels, and the istream error states matter: extraction semantics
     follow C++11 (a sentry failure — failbit already set, or whitespace
     skipping hitting end of input — leaves the target unmodified; a
     conversion failure stores 0 and sets failbit). -/

/-- A pixel of the alternate reader (print_ppm.cpp, struct RGB with int
    channels). -/
structure RGBi where
  r : Int
  g : Int
  b : Int
deriving DecidableEq

/-- An input stream: the remaining bytes plus the fail state.  A stream
    whose data is exhausted makes the next extraction fail without
    modifying its target (eofbit leads to a sentry failure). -/
structure IStream where
  data : List Nat
  failed : Bool
deriving DecidableEq

/-- `file >> format` (string extraction): skip whitespace, read a token;
    an empty token means failure (target left as the empty string). -/
def extractToken (s : IStream) : List Nat × IStream :=
  if s.failed then ([], s)
  else
    let t := takeToken (skipWs s.data)
    if t.1 = [] then ([], ⟨t.2, true⟩)
    else (t.1, ⟨t.2, false⟩)

/-- `file >> v` for an int under C++11 semantics.  old is the current
    value of the target (none when it is an uninitialized local whose
    value is indeterminate). -/
def extractInt (s : IStream) (old : Option Int) : Option Int × IStream :=
  if s.failed then (old, s)
  else
    match skipWs s.data with
    | [] => (old, ⟨[], true⟩)
    | c :: cs =>
      match parseIntPfx (c :: cs) with
      | some (v, rest) => (some v, ⟨rest, false⟩)
      | none => (some 0, ⟨c :: cs, true⟩)

/-- `file.ignore()`: discard one byte (a no-op on a failed stream). -/
def istreamIgnore (s : IStream) : IStream :=
  if s.failed then s else ⟨s.data.drop 1, s.failed⟩

/-- One row of the plain-text (P3) pixel loop: each channel is read into
    a value-initialized int (0), so a failed extraction leaves 0. -/
def readP3Row : IStream → Nat → List RGBi × IStream
  | st, 0 => ([], st)
  | st, w + 1 =>
    let r := extractInt st (some 0)
    let g := extractInt r.2 (some 0)
    let b := extractInt g.2 (some 0)
    let rest := readP3Row b.2 w
    (⟨(r.1).getD 0, (g.1).getD 0, (b.1).getD 0⟩ :: rest.1, rest.2)

def readP3Rows : IStream → Nat → Nat → List (List RGBi) × IStream
  | st, 0, _ => ([], st)
  | st, h + 1, w =>
    let row := readP3Row st w
    let rest := readP3Rows row.2 h w
    (row.1 :: rest.1, rest.2)

/-- One pixel of the binary (P6) loop: `file.read(rgb, 3)` into an
    uninitialized 3-byte local.  If the stream has already failed, or
    fewer than 3 bytes remain, the subsequent use of rgb reads
    indeterminate values (undefined behaviour): none. -/
def readP6Pixel (st : IStream) : Option (RGBi × IStream) :=
  if st.failed then none
  else
    match st.data with
    | r :: g :: b :: rest => some (⟨(r : Int), (g : Int), (b : Int)⟩, ⟨rest, false⟩)
    | _ => none

def readP6Row : IStream → Nat → Option (List RGBi × IStream)
  | st, 0 => some ([], st)
  | st, w + 1 =>
    match readP6Pixel st with
    | none => none
    | some (p, st1) =>
      match readP6Row st1 w with
      | none => none
      | some (row, st2) => some (p :: row, st2)

def readP6Rows : IStream → Nat → Nat → Option (List (List RGBi) × IStream)
  | st, 0, _ => some ([], st)
  | st, h + 1, w =>
    match readP6Row st w with
    | none => none
    | some (row, st1) =>
      match readP6Rows st1 h w with
      | none => none
      | some (rows, st2) => some (row :: rows, st2)

/-- What loadPPM reports through its return value and out-parameters:
    the success flag, width, height (none when left indeterminate),
    the format token and the loaded grid. -/
structure LoadResult where
  success : Bool
  width : Option Int
  height : Option Int
  format : List Nat
  image : List (List RGBi)
deriving DecidableEq

/-- loadPPM (print_ppm.cpp lines 10-53) on the opened byte stream.
    Reads the format token and returns failure unless it is "P3" or
    "P6"; then reads width, height and maxVal with no error checks,
    ignores one byte, resizes the grid to height rows of width
    value-initialized pixels, and loads pixels in the P3 or P6 style.
    A resize with an indeterminate or negative dimension, or a P6 pixel
    assembled from unread bytes, is undefined behaviour: none. -/
def loadPPM (s0 : List Nat) : Option LoadResult :=
  let f := extractToken ⟨s0, false⟩
  if f.1 ≠ [80, 51] ∧ f.1 ≠ [80, 54] then
    some ⟨false, none, none, f.1, []⟩
  else
    let wex := extractInt f.2 none
    let hex := extractInt wex.2 none
    let mex := extractInt hex.2 none
    let st := istreamIgnore mex.2
    match wex.1, hex.1 with
    | some wv, some hv =>
      if wv < 0 ∨ hv < 0 then none
      else if f.1 = [80, 51] then
        some ⟨true, some wv, some hv, f.1,
              (readP3Rows st hv.toNat wv.toNat).1⟩
      else
        match readP6Rows st hv.toNat wv.toNat with
        | none => none
        | some (img, _) => some ⟨true, some wv, some hv, f.1, img⟩
    | _, _ => none

/-- Specification companion of natDigits used inside proofs: the decimal
    digit bytes of n by well-founded recursion (natDigitsCore with enough
    fuel computes exactly this list). -/
def digitsSpec (n : Nat) : List Nat :=
  if n < 10 then [48 + n]
  else digitsSpec (n / 10) ++ [48 + n % 10]
termination_by n
decreasing_by exact Nat.div_lt_self (by omega) (by omega)

/-- A concrete 3x3 buffer used to instantiate the blur theorem. -/
def img3x3 : List (List RGB) :=
  [[⟨9, 0, 0⟩, ⟨9, 0, 0⟩, ⟨9, 0, 0⟩],
   [⟨9, 0, 0⟩, ⟨0, 9, 0⟩, ⟨9, 0, 0⟩],
   [⟨9, 0, 0⟩, ⟨9, 0, 0⟩, ⟨9, 0, 0⟩]]

/-- A concrete 4x4 buffer (pixel (i,j) has red channel 10*i + j) used to
    instantiate the compress theorem. -/
def img4x4 : List (List RGB) :=
  [[⟨0, 0, 0⟩, ⟨1, 1, 1⟩, ⟨2, 2, 2⟩, ⟨3, 3, 3⟩],
   [⟨10, 0, 0⟩, ⟨11, 1, 1⟩, ⟨12, 2, 2⟩, ⟨13, 3, 3⟩],
   [⟨20, 0, 0⟩, ⟨21, 1, 1⟩, ⟨22, 2, 2⟩, ⟨23, 3, 3⟩],
   [⟨30, 0, 0⟩, ⟨31, 1, 1⟩, ⟨32, 2, 2⟩, ⟨33, 3, 3⟩]]

/-- A concrete 1x5 buffer used to instantiate the rectangularity
    theorem. -/
def img1x5 : List (List RGB) :=
  [[⟨1, 1, 1⟩, ⟨2, 2, 2⟩, ⟨3, 3, 3⟩, ⟨4, 4, 4⟩, ⟨5, 5, 5⟩]]

/-! List access helpers -/

theorem getD_eq_getElem (l : List α) (i : Nat) (d : α) (h : i < l.length) :
    l.getD i d = l[i] := by
  simp [List.getD, List.getElem?_eq_getElem h]

theorem getD_eq_of_le (l : List α) (i : Nat) (d : α) (h : l.length ≤ i) :
    l.getD i d = d := by
  simp [List.getD, List.getElem?_eq_none h]

theorem idxMapFrom_length (f : Nat → α → β) (k : Nat) (l : List α) :
    (idxMapFrom f k l).length = l.length := by
  induction l generalizing k with
  | nil => rfl
  | cons a as ih => simp [idxMapFrom, ih]

theorem idxMapFrom_getD (f : Nat → α → β) (k : Nat) (l : List α) (i : Nat)
    (d : α) (d2 : β) (h : i < l.length) :
    (idxMapFrom f k l).getD i d2 = f (k + i) (l.getD i d) := by
  induction l generalizing k i with
  | nil => simp at h
  | cons a as ih =>
    cases i with
    | zero => simp [idxMapFrom]
    | succ n =>
      have hlt : n < as.length := by simpa using h
      have := ih (k + 1) n hlt
      simpa [idxMapFrom, Nat.add_assoc, Nat.add_comm 1 n] using this

theorem mem_idxMapFrom {f : Nat → α → β} {k : Nat} {l : List α} {b : β}
    (hb : b ∈ idxMapFrom f k l) :
    ∃ i, ∃ h : i < l.length, b = f (k + i) l[i] := by
  induction l generalizing k with
  | nil => simp [idxMapFrom] at hb
  | cons a as ih =>
    rcases (by simpa [idxMapFrom] using hb : b = f k a ∨ b ∈ idxMapFrom f (k + 1) as) with h1 | h2
    · exact ⟨0, by simp, by simpa using h1⟩
    · obtain ⟨i, hi, hEq⟩ := ih h2
      exact ⟨i + 1, by simpa using hi, by simpa [Nat.add_assoc, Nat.add_comm 1 i] using hEq⟩

/-! Byte-level parsing helpers -/

theorem skipWs_cons_of_not {c : Nat} (cs : List Nat) (h : isspaceByte c = false) :
    skipWs (c :: cs) = c :: cs := by
  simp [skipWs, h]

theorem skipWs_length_le (s : List Nat) : (skipWs s).length ≤ s.length := by
  induction s with
  | nil => simp [skipWs]
  | cons c cs ih =>
    by_cases h : isspaceByte c
    · simp [skipWs, h]; omega
    · simp [skipWs, h]

theorem splitAtNewline_append (xs rest : List Nat) (hx : 10 ∉ xs) :
    splitAtNewline (xs ++ 10 :: rest) = (xs, rest) := by
  induction xs with
  | nil => simp [splitAtNewline]
  | cons c cs ih =>
    have hc : c ≠ 10 := fun h => hx (h ▸ List.mem_cons_self c cs)
    simp [splitAtNewline, hc, ih (fun h => hx (List.mem_cons_of_mem c h))]

theorem isspaceByte_digit {d : Nat} (h1 : 48 ≤ d) : isspaceByte d = false := by
  simp [isspaceByte]; omega

theorem isDigitByte_iff {d : Nat} : isDigitByte d = true ↔ 48 ≤ d ∧ d ≤ 57 := by
  simp [isDigitByte]

/-! Decimal digit lists -/

theorem natDigitsCore_eq_spec (fuel : Nat) :
    ∀ n acc, n < fuel → natDigitsCore fuel n acc = digitsSpec n ++ acc := by
  induction fuel with
  | zero => intro n acc h; omega
  | succ f ih =>
    intro n acc h
    by_cases h10 : n < 10
    · rw [natDigitsCore, if_pos h10, digitsSpec, if_pos h10]
      simp
    · have hdiv : n / 10 < n := Nat.div_lt_self (by omega) (by omega)
      rw [natDigitsCore, if_neg h10, ih (n / 10) _ (by omega)]
      conv_rhs => rw [digitsSpec]
      rw [if_neg h10]
      simp

theorem natDigits_eq_spec (n : Nat) : natDigits n = digitsSpec n := by
  have := natDigitsCore_eq_spec (n + 1) n [] (by omega)
  simpa [natDigits] using this

theorem digitsSpec_bounds (n : Nat) : ∀ d ∈ digitsSpec n, 48 ≤ d ∧ d ≤ 57 := by
  induction n using Nat.strong_induction_on with
  | _ n ih =>
    rw [digitsSpec]
    by_cases h : n < 10
    · rw [if_pos h]; intro d hd; simp at hd; omega
    · rw [if_neg h]
      intro d hd
      rcases List.mem_append.1 hd with h1 | h2
      · exact ih (n / 10) (Nat.div_lt_self (by omega) (by omega)) d h1
      · have : d = 48 + n % 10 := by simpa using h2
        have := Nat.mod_lt n (show 0 < 10 by omega)
        omega

theorem digitsSpec_ne_nil (n : Nat) : digitsSpec n ≠ [] := by
  rw [digitsSpec]
  by_cases h : n < 10 <;> simp [h]

theorem foldl_digitsSpec (n : Nat) :
    (digitsSpec n).foldl (fun a d => a * 10 + (d - 48)) 0 = n := by
  induction n using Nat.strong_induction_on with
  | _ n ih =>
    rw [digitsSpec]
    by_cases h : n < 10
    · rw [if_pos h]; simp
    · rw [if_neg h, List.foldl_append, ih (n / 10) (Nat.div_lt_self (by omega) (by omega))]
      simp
      omega

theorem takeWhile_append_all {p : Nat → Bool} {xs rest : List Nat}
    (hall : ∀ x ∈ xs, p x = true)
    (hrest : ∀ r, rest.head? = some r → p r = false) :
    (xs ++ rest).takeWhile p = xs ∧ (xs ++ rest).dropWhile p = rest := by
  induction xs with
  | nil =>
    cases rest with
    | nil => simp
    | cons r rs =>
      have := hrest r rfl
      simp [List.takeWhile_cons, List.dropWhile_cons, this]
  | cons x xs ih =>
    have hx : p x = true := hall x (List.mem_cons_self x xs)
    have hxs : ∀ y ∈ xs, p y = true := fun y hy => hall y (List.mem_cons_of_mem x hy)
    obtain ⟨h1, h2⟩ := ih hxs
    simp [List.takeWhile_cons, List.dropWhile_cons, hx, h1, h2]

theorem parseNatAux_digits (n : Nat) (rest : List Nat)
    (hrest : ∀ r, rest.head? = some r → isDigitByte r = false) :
    parseNatAux (digitsSpec n ++ rest) = some (n, rest) := by
  have hall : ∀ x ∈ digitsSpec n, isDigitByte x = true := by
    intro x hx
    exact isDigitByte_iff.2 (digitsSpec_bounds n x hx)
  obtain ⟨h1, h2⟩ := takeWhile_append_all hall hrest
  rw [parseNatAux]
  simp only [h1, h2]
  simp [digitsSpec_ne_nil, foldl_digitsSpec]

theorem parseIntPfx_digits (n : Nat) (rest : List Nat)
    (hrest : ∀ r, rest.head? = some r → isDigitByte r = false) :
    parseIntPfx (digitsSpec n ++ rest) = some ((n : Int), rest) := by
  obtain ⟨d, t, hd⟩ := List.exists_cons_of_ne_nil (digitsSpec_ne_nil n)
  have hdig : 48 ≤ d ∧ d ≤ 57 := digitsSpec_bounds n d (by rw [hd]; exact List.mem_cons_self d t)
  have h45 : d ≠ 45 := by omega
  have h43 : d ≠ 43 := by omega
  have hform : digitsSpec n ++ rest = d :: (t ++ rest) := by rw [hd]; simp
  rw [hform, parseIntPfx]
  simp only [h45, h43, if_false]
  rw [← hform, parseNatAux_digits n rest hrest]
  rfl

theorem parseIntFrom_digits (n : Nat) (rest : List Nat)
    (hrest : ∀ r, rest.head? = some r → isDigitByte r = false) :
    parseIntFrom (digitsSpec n ++ rest) = some ((n : Int), rest) := by
  obtain ⟨d, t, hd⟩ := List.exists_cons_of_ne_nil (digitsSpec_ne_nil n)
  have hdig : 48 ≤ d ∧ d ≤ 57 := digitsSpec_bounds n d (by rw [hd]; exact List.mem_cons_self d t)
  have hform : digitsSpec n ++ rest = d :: (t ++ rest) := by rw [hd]; simp
  rw [parseIntFrom, hform, skipWs_cons_of_not _ (isspaceByte_digit hdig.1), ← hform]
  exact parseIntPfx_digits n rest hrest

/-! The readPPM header computation on files written by writePPM -/

theorem parseTwoInts_digits (w h : Nat) :
    parseTwoInts (digitsSpec w ++ 32 :: digitsSpec h) = some ((w : Int), (h : Int)) := by
  have h1 : parseIntFrom (digitsSpec w ++ 32 :: digitsSpec h) = some ((w : Int), 32 :: digitsSpec h) :=
    parseIntFrom_digits w _ (by intro r hr; simp at hr; subst hr; rfl)
  have h2 : parseIntFrom (32 :: digitsSpec h) = some ((h : Int), []) := by
    obtain ⟨d, t, hd⟩ := List.exists_cons_of_ne_nil (digitsSpec_ne_nil h)
    have hdig := digitsSpec_bounds h d (by rw [hd]; exact List.mem_cons_self d t)
    have hskip : skipWs (32 :: digitsSpec h) = digitsSpec h := by
      have hws : isspaceByte 32 = true := rfl
      rw [show skipWs (32 :: digitsSpec h) = skipWs (digitsSpec h) from by simp [skipWs, hws]]
      rw [hd]
      exact skipWs_cons_of_not _ (isspaceByte_digit hdig.1)
    rw [parseIntFrom, hskip]
    have := parseIntPfx_digits h [] (by intro r hr; simp at hr)
    simpa using this
  rw [parseTwoInts, h1]
  simp only []
  rw [h2]

theorem parseDims_header (w h : Nat) (R2 : List Nat) :
    parseDims (10 :: (digitsSpec w ++ 32 :: (digitsSpec h ++ 10 :: R2))) =
      some ((w : Int), (h : Int), R2) := by
  have hxs : digitsSpec w ++ 32 :: (digitsSpec h ++ 10 :: R2) =
      (digitsSpec w ++ 32 :: digitsSpec h) ++ 10 :: R2 := by
    simp
  have hmem : 10 ∉ digitsSpec w ++ 32 :: digitsSpec h := by
    intro hm
    rcases List.mem_append.1 hm with h1 | h2
    · have := digitsSpec_bounds w 10 h1; omega
    · rcases List.mem_cons.1 h2 with h3 | h4
      · omega
      · have := digitsSpec_bounds h 10 h4; omega
  obtain ⟨d, t, hd⟩ := List.exists_cons_of_ne_nil (digitsSpec_ne_nil w)
  have hdig := digitsSpec_bounds w d (by rw [hd]; exact List.mem_cons_self d t)
  have hcons : digitsSpec w ++ 32 :: (digitsSpec h ++ 10 :: R2) =
      d :: (t ++ 32 :: (digitsSpec h ++ 10 :: R2)) := by rw [hd]; simp
  have hsplit : splitAtNewline (digitsSpec w ++ 32 :: (digitsSpec h ++ 10 :: R2)) =
      (digitsSpec w ++ 32 :: digitsSpec h, R2) := by
    rw [hxs]; exact splitAtNewline_append _ _ hmem
  have hne : digitsSpec w ++ 32 :: digitsSpec h ≠ [] := by
    rw [hd]; simp
  have hhead : (digitsSpec w ++ 32 :: digitsSpec h).head? = some d := by
    rw [hd]; simp
  rw [parseDims]
  rw [show (10 :: (digitsSpec w ++ 32 :: (digitsSpec h ++ 10 :: R2))).length + 1 =
      ((digitsSpec w ++ 32 :: (digitsSpec h ++ 10 :: R2)).length + 1) + 1 from by simp]
  rw [parseDimsCore]
  simp only [show splitAtNewline (10 :: (digitsSpec w ++ 32 :: (digitsSpec h ++ 10 :: R2))) =
      ([], digitsSpec w ++ 32 :: (digitsSpec h ++ 10 :: R2)) from by simp [splitAtNewline],
    if_pos rfl]
  rw [hcons]
  rw [show (d :: (t ++ 32 :: (digitsSpec h ++ 10 :: R2))).length + 1 =
      ((t ++ 32 :: (digitsSpec h ++ 10 :: R2)).length + 1) + 1 from by simp]
  rw [parseDimsCore]
  rw [← hcons]
  simp only [hsplit, hne, hhead, if_neg (show ¬ ((some d : Option Nat) = some 35) from by
    simp; omega)]
  simp [parseTwoInts_digits]

theorem parseMaxVal_255 (data : List Nat) :
    parseMaxVal (50 :: 53 :: 53 :: 10 :: data) = some ((255 : Int), data) := by
  rw [parseMaxVal]
  rw [show (50 :: 53 :: 53 :: 10 :: data).length + 1 = (data.length + 4) + 1 from by
    simp]
  rw [parseMaxValCore]
  simp only [show splitAtNewline (50 :: 53 :: 53 :: 10 :: data) = ([50, 53, 53], data) from by
    simp [splitAtNewline]]
  rw [if_neg (by simp : ¬ (([50, 53, 53] : List Nat) = []))]
  rw [show ([50, 53, 53] : List Nat).head? = some 50 from rfl]
  rw [if_neg (by simp : ¬ ((some 50 : Option Nat) = some 35))]
  rw [show parseIntFrom [50, 53, 53] = some ((255 : Int), []) from rfl]

theorem readPPM_header (w h : Nat) (data : List Nat) :
    readPPM (ppmHeader w h ++ data) = readRows w 0 h (skipWs data) := by
  have hform : ppmHeader w h ++ data =
      80 :: 54 :: 10 ::
        (digitsSpec w ++ 32 :: (digitsSpec h ++ 10 :: (50 :: 53 :: 53 :: 10 :: data))) := by
    rw [ppmHeader, natDigits_eq_spec, natDigits_eq_spec]
    simp
  have htok : readToken (ppmHeader w h ++ data) =
      ([80, 54],
       10 :: (digitsSpec w ++ 32 :: (digitsSpec h ++ 10 :: (50 :: 53 :: 53 :: 10 :: data)))) := by
    rw [hform, readToken]
    rw [skipWs_cons_of_not _ (by rfl)]
    simp [takeToken, isspaceByte]
  have hneg : ¬(((w : Nat) : Int) < 0 ∨ ((h : Nat) : Int) < 0) := by omega
  rw [readPPM]
  simp only [htok, parseDims_header, parseMaxVal_255]
  simp [hneg]

theorem readRows_short (w : Nat) :
    ∀ h i s, s.length < h * (w * 3) →
      ∃ k, i ≤ k ∧ k < i + h ∧ readRows w i h s = .error (.truncatedRow k) := by
  intro h
  induction h with
  | zero => intro i s hs; simp at hs
  | succ hh ih =>
    intro i s hs
    by_cases hlt : s.length < w * 3
    · refine ⟨i, Nat.le_refl i, by omega, ?_⟩
      rw [readRows, if_pos hlt]
    · have hmul : (hh + 1) * (w * 3) = hh * (w * 3) + w * 3 := Nat.succ_mul hh (w * 3)
      obtain ⟨k, h1, h2, h3⟩ := ih (i + 1) (s.drop (w * 3)) (by simp; omega)
      refine ⟨k, by omega, by omega, ?_⟩
      rw [readRows, if_neg hlt, h3]

/-- Claim C7: decoding a file whose pixel section holds fewer than
    width*height*3 bytes fails with the truncated-data error for some row
    and returns no buffer. -/
theorem readPPM_truncated_pixel_data (w h : Nat) (data : List Nat)
    (_hw : 1 ≤ w) (_hh : 1 ≤ h) (hshort : data.length < w * h * 3) :
    ∃ k, k < h ∧ readPPM (ppmHeader w h ++ data) = .error (.truncatedRow k) := by
  have hlen : (skipWs data).length < h * (w * 3) := by
    have h1 := skipWs_length_le data
    have h2 : w * h * 3 = h * (w * 3) := by ring
    omega
  obtain ⟨k, h1, h2, h3⟩ := readRows_short w h 0 (skipWs data) hlen
  rw [readPPM_header]
  exact ⟨k, by omega, h3⟩

/-- Witness for C7 at a 1x1 file whose pixel section has 2 of the 3
    required bytes. -/
theorem readPPM_truncated_pixel_data_witness :
    ∃ k, k < 1 ∧ readPPM (ppmHeader 1 1 ++ [0, 0]) = .error (.truncatedRow k) :=
  readPPM_truncated_pixel_data 1 1 [0, 0] (by decide) (by decide) (by decide)

/-- Claim C1 (falsified): the buffer [[(10,0,0)]] is a valid 1x1 buffer,
    writePPM encodes it as "P6\n1 1\n255\n" followed by the bytes
    10, 0, 0, and readPPM on exactly those bytes fails with the
    truncated-data error instead of returning the buffer: the whitespace
    loop of the decoder consumes the leading pixel byte 10. -/
theorem roundtrip_fails_on_whitespace_leading_byte :
    (writePPM true [[⟨10, 0, 0⟩]] none).1 =
      .ok [80, 54, 10, 49, 32, 49, 10, 50, 53, 53, 10, 10, 0, 0] ∧
    readPPM [80, 54, 10, 49, 32, 49, 10, 50, 53, 53, 10, 10, 0, 0] =
      .error (.truncatedRow 0) :=
  ⟨rfl, rfl⟩

/-- Claim C2 (falsified): on the well-formed 1x1 P6 file
    "P6\n1 1\n255\n" ++ [32, 65, 66] the decoder consumes the
    whitespace-valued pixel byte 32 together with the mandatory separator
    and fails with the truncated-data error instead of returning pixel
    (32, 65, 66); with a non-whitespace first pixel byte the same header
    decodes correctly. -/
theorem readPPM_eats_whitespace_pixel_bytes :
    readPPM ([80, 54, 10, 49, 32, 49, 10, 50, 53, 53, 10] ++ [32, 65, 66]) =
      .error (.truncatedRow 0) ∧
    readPPM ([80, 54, 10, 49, 32, 49, 10, 50, 53, 53, 10] ++ [65, 66, 67]) =
      .ok [[⟨65, 66, 67⟩]] :=
  ⟨rfl, rfl⟩

/-- Counterexample to claim C3: encoding the zero-width buffer [[]] with
    a file of bytes [200] already at the output path fails with the
    empty-image error, but the path now holds an empty file: the open ran
    first and truncated it, so the file system state is not unchanged. -/
theorem writePPM_zero_dim_cex :
    writePPM true [[]] (some [200]) = (.error .emptyImage, some []) ∧
    some ([] : List Nat) ≠ some [200] :=
  ⟨rfl, by simp⟩

/-- Claim C3 as amended: encoding a buffer with zero width or zero
    height fails with the empty-image (InvalidInput) error, but only
    after the opening of the output stream has created or truncated the
    file: on this failure the path holds an empty file, whatever was
    there before. -/
theorem writePPM_zero_dim_truncates (img : List (List RGB)) (fs : Option (List Nat))
    (hzero : img.length = 0 ∨ (img.headD []).length = 0) :
    writePPM true img fs = (.error .emptyImage, some []) := by
  rw [writePPM]
  rcases hzero with h0 | h0
  · simp [h0]
  · by_cases hlen : img.length = 0
    · simp [hlen]
    · have hpos : 0 < img.length := Nat.pos_of_ne_zero hlen
      have h0n : img.head?.getD [] = ([] : List RGB) := by
        cases himg : img with
        | nil => simp
        | cons a as =>
          rw [himg] at h0
          have : a.length = 0 := by simpa using h0
          simp [List.eq_nil_of_length_eq_zero this]
      simp [hpos, h0n]

/-- Witness for the amended C3 at the empty buffer with no file at the
    path. -/
theorem writePPM_zero_dim_truncates_witness :
    writePPM true ([] : List (List RGB)) none = (.error .emptyImage, some []) :=
  writePPM_zero_dim_truncates [] none (by decide)

/-- Claim C6 (code bug): mirroring the valid 1x1 buffer [[(0,0,0)]] hits
    the out-of-bounds diagnostic reads image[0][width-5..width-1]
    (negative indices once width < 5), modelled as none; for a row of
    width 5 the print stays in bounds and each row is reversed. -/
theorem mirror_narrow_width_oob :
    mirror [[⟨0, 0, 0⟩]] = none ∧
    mirror img1x5 =
      some [[⟨5, 5, 5⟩, ⟨4, 4, 4⟩, ⟨3, 3, 3⟩, ⟨2, 2, 2⟩, ⟨1, 1, 1⟩]] :=
  ⟨rfl, rfl⟩

/-- Claim C8 (code bug): loadPPM returns success on malformed input.  On
    the bytes of "P6\n5 x" it reports success with width 5, height 0 and
    an empty grid (the failed height extraction stored 0); on the
    truncated "P3\n2 1\n255\n1 2 3" (which declares two pixels but
    provides one) it reports success with the missing pixel zero-filled. -/
theorem loadPPM_success_on_malformed :
    loadPPM [80, 54, 10, 53, 32, 120] =
      some ⟨true, some 5, some 0, [80, 54], []⟩ ∧
    loadPPM [80, 51, 10, 50, 32, 49, 10, 50, 53, 53, 10, 49, 32, 50, 32, 51] =
      some ⟨true, some 2, some 1, [80, 51], [[⟨1, 2, 3⟩, ⟨0, 0, 0⟩]]⟩ :=
  ⟨rfl, rfl⟩

/-- Claim C10: blur, mirror and compress all read row 0 through
    rowZeroLen; on a buffer with zero rows that access is out of bounds
    and each function is undefined (none), while on any buffer with at
    least one row the access succeeds.  Downsampling a one-row buffer
    yields the empty buffer, which the three functions then reject. -/
theorem row_zero_access_requires_nonempty :
    rowZeroLen ([] : List (List RGB)) = none ∧
    blur ([] : List (List RGB)) = none ∧
    mirror ([] : List (List RGB)) = none ∧
    compress ([] : List (List RGB)) = none ∧
    (∀ img : List (List RGB), img ≠ [] → ∃ len, rowZeroLen img = some len) ∧
    (∀ row : List RGB, compress [row] = some []) := by
  refine ⟨rfl, rfl, rfl, rfl, ?_, ?_⟩
  · intro img hne
    cases img with
    | nil => exact absurd rfl hne
    | cons r tl => exact ⟨r.length, rfl⟩
  · intro row
    simp [compress, rowZeroLen]

/-- Witness for C10 at a 1x1 buffer. -/
theorem row_zero_access_requires_nonempty_witness :
    (∃ len, rowZeroLen [[(⟨0, 0, 0⟩ : RGB)]] = some len) ∧
    compress [[(⟨0, 0, 0⟩ : RGB)]] = some [] :=
  ⟨row_zero_access_requires_nonempty.2.2.2.2.1 [[⟨0, 0, 0⟩]] (by simp),
   row_zero_access_requires_nonempty.2.2.2.2.2 [⟨0, 0, 0⟩]⟩

/-! Access and bound helpers for the transforms -/

theorem rowZeroLen_of_rect {img : List (List RGB)} {w : Nat}
    (hrect : ∀ row ∈ img, row.length = w) (hne : img ≠ []) :
    rowZeroLen img = some w := by
  cases img with
  | nil => exact absurd rfl hne
  | cons r0 tl =>
    simp [rowZeroLen, hrect r0 (List.mem_cons_self r0 tl)]

theorem px_le_bound {img : List (List RGB)}
    (hval : ∀ row ∈ img, ∀ p ∈ row, p.r ≤ 255 ∧ p.g ≤ 255 ∧ p.b ≤ 255)
    (i j : Nat) :
    (px img i j).r ≤ 255 ∧ (px img i j).g ≤ 255 ∧ (px img i j).b ≤ 255 := by
  simp only [px]
  by_cases hi : i < img.length
  · have hrow : img.getD i [] ∈ img := by
      rw [getD_eq_getElem _ _ _ hi]
      exact List.getElem_mem hi
    by_cases hj : j < (img.getD i []).length
    · have hp : (img.getD i []).getD j ⟨0, 0, 0⟩ ∈ img.getD i [] := by
        rw [getD_eq_getElem _ _ _ hj]
        exact List.getElem_mem hj
      exact hval _ hrow _ hp
    · rw [getD_eq_of_le (img.getD i []) j ⟨0, 0, 0⟩ (by omega)]
      simp
  · rw [getD_eq_of_le img i [] (by omega)]
    simp

theorem box3sum_le {f : RGB → Nat} {img : List (List RGB)}
    (hp : ∀ a b, f (px img a b) ≤ 255) (i j : Nat) :
    box3sum f img i j ≤ 2295 := by
  rw [box3sum]
  have h1 := hp (i - 1) (j - 1)
  have h2 := hp (i - 1) j
  have h3 := hp (i - 1) (j + 1)
  have h4 := hp i (j - 1)
  have h5 := hp i j
  have h6 := hp i (j + 1)
  have h7 := hp (i + 1) (j - 1)
  have h8 := hp (i + 1) j
  have h9 := hp (i + 1) (j + 1)
  omega

theorem px_idxMap (g : Nat → Nat → RGB → RGB) (img : List (List RGB)) (i j : Nat)
    (hi : i < img.length) (hj : j < (img.getD i []).length) :
    px (idxMap (fun a row => idxMap (fun b p => g a b p) row) img) i j =
      g i j (px img i j) := by
  simp only [px, idxMap,
    idxMapFrom_getD _ 0 img i ([] : List RGB) ([] : List RGB) hi, Nat.zero_add]
  simp only [idxMapFrom_getD _ 0 (img.getD i ([] : List RGB)) j
    (⟨0, 0, 0⟩ : RGB) (⟨0, 0, 0⟩ : RGB) hj, Nat.zero_add]

theorem map_map_rect (f : RGB → RGB) (img : List (List RGB)) (w : Nat)
    (hrect : ∀ row ∈ img, row.length = w) :
    (img.map fun row => row.map f).length = img.length ∧
    ∀ row ∈ img.map (fun row => row.map f), row.length = w := by
  constructor
  · simp
  · intro row hrow
    obtain ⟨r, hr, hEq⟩ := List.mem_map.1 hrow
    rw [← hEq]
    simp [hrect r hr]

/-- Claim C4: on a rectangular buffer of height and width at least 3
    with 8-bit channels, blur succeeds, keeps the shape, gives every
    interior pixel the floor of the 3x3 per-channel sum over the pre-blur
    snapshot divided by 9, and leaves every border pixel unchanged. -/
theorem blur_interior_box_average (img : List (List RGB)) (w : Nat)
    (hrect : ∀ row ∈ img, row.length = w)
    (hh : 3 ≤ img.length) (_hw : 3 ≤ w)
    (hval : ∀ row ∈ img, ∀ p ∈ row, p.r ≤ 255 ∧ p.g ≤ 255 ∧ p.b ≤ 255) :
    ∃ out, blur img = some out ∧ out.length = img.length ∧
      (∀ row ∈ out, row.length = w) ∧
      (∀ i j, 1 ≤ i → i + 1 < img.length → 1 ≤ j → j + 1 < w →
        px out i j = ⟨box3sum RGB.r img i j / 9, box3sum RGB.g img i j / 9,
                      box3sum RGB.b img i j / 9⟩) ∧
      (∀ i j, i < img.length → j < w →
        ¬(1 ≤ i ∧ i + 1 < img.length ∧ 1 ≤ j ∧ j + 1 < w) →
        px out i j = px img i j) := by
  have hne : img ≠ [] := by
    intro h
    rw [h] at hh
    simp at hh
  have hr0 : rowZeroLen img = some w := rowZeroLen_of_rect hrect hne
  have hjlen : ∀ i j, i < img.length → j < w → j < (img.getD i []).length := by
    intro i j hi hj
    rw [getD_eq_getElem img i [] hi, hrect img[i] (List.getElem_mem hi)]
    exact hj
  refine ⟨_, by rw [blur, hr0], ?_, ?_, ?_, ?_⟩
  · simp [idxMap, idxMapFrom_length]
  · intro row hrow
    obtain ⟨i, hi, hEq⟩ := mem_idxMapFrom hrow
    rw [hEq]
    simp [idxMap, idxMapFrom_length]
    exact hrect img[i] (List.getElem_mem hi)
  · intro i j h1 h2 h3 h4
    rw [px_idxMap _ img i j (by omega) (hjlen i j (by omega) (by omega))]
    rw [if_pos ⟨h1, h2, h3, h4⟩]
    have hpR : ∀ a b, RGB.r (px img a b) ≤ 255 := fun a b => (px_le_bound hval a b).1
    have hpG : ∀ a b, RGB.g (px img a b) ≤ 255 := fun a b => (px_le_bound hval a b).2.1
    have hpB : ∀ a b, RGB.b (px img a b) ≤ 255 := fun a b => (px_le_bound hval a b).2.2
    have hR := box3sum_le hpR i j
    have hG := box3sum_le hpG i j
    have hB := box3sum_le hpB i j
    have dR : box3sum RGB.r img i j / 9 ≤ 255 := by
      have := Nat.div_le_div_right (c := 9) hR
      omega
    have dG : box3sum RGB.g img i j / 9 ≤ 255 := by
      have := Nat.div_le_div_right (c := 9) hG
      omega
    have dB : box3sum RGB.b img i j / 9 ≤ 255 := by
      have := Nat.div_le_div_right (c := 9) hB
      omega
    rw [Nat.mod_eq_of_lt (by omega), Nat.mod_eq_of_lt (by omega),
      Nat.mod_eq_of_lt (by omega)]
  · intro i j hi hj hni
    rw [px_idxMap _ img i j hi (hjlen i j hi hj)]
    rw [if_neg hni]

/-- Claim C5: on a rectangular buffer with height and width at least 1,
    compress succeeds with a buffer of floor(height/2) rows and
    floor(width/2) columns whose pixel (i,j) is input pixel
    (2i+1, 2j+1). -/
theorem compress_keeps_odd_indices (img : List (List RGB)) (w : Nat)
    (hrect : ∀ row ∈ img, row.length = w)
    (hh : 1 ≤ img.length) (_hw : 1 ≤ w) :
    ∃ out, compress img = some out ∧ out.length = img.length / 2 ∧
      (∀ row ∈ out, row.length = w / 2) ∧
      (∀ i j, i < img.length / 2 → j < w / 2 →
        px out i j = px img (2 * i + 1) (2 * j + 1)) := by
  have hne : img ≠ [] := by
    intro h
    rw [h] at hh
    simp at hh
  have hr0 : rowZeroLen img = some w := rowZeroLen_of_rect hrect hne
  refine ⟨_, by rw [compress, hr0], ?_, ?_, ?_⟩
  · simp
  · intro row hrow
    obtain ⟨i, hi, hEq⟩ := List.mem_map.1 hrow
    rw [← hEq]
    simp
  · intro i j hi hj
    rw [px]
    rw [getD_eq_getElem _ i [] (by simpa using hi)]
    rw [List.getElem_map, List.getElem_range]
    rw [getD_eq_getElem (List.map (fun b => px img (2 * i + 1) (2 * b + 1))
      (List.range (w / 2))) j ⟨0, 0, 0⟩ (by simpa using hj)]
    rw [List.getElem_map, List.getElem_range]

/-- Claim C9: each of the six transforms maps a rectangular buffer to a
    rectangular buffer; grayscale, invert and contrast keep the shape
    outright, blur and mirror keep it whenever they return a buffer, and
    compress halves both dimensions by floor division. -/
theorem transforms_preserve_rectangular (img : List (List RGB)) (w : Nat)
    (hrect : ∀ row ∈ img, row.length = w) :
    ((grayscale img).length = img.length ∧ ∀ row ∈ grayscale img, row.length = w) ∧
    ((invert img).length = img.length ∧ ∀ row ∈ invert img, row.length = w) ∧
    ((contrast img).length = img.length ∧ ∀ row ∈ contrast img, row.length = w) ∧
    (∀ out, blur img = some out → out.length = img.length ∧ ∀ row ∈ out, row.length = w) ∧
    (∀ out, mirror img = some out → out.length = img.length ∧ ∀ row ∈ out, row.length = w) ∧
    (∀ out, compress img = some out →
      out.length = img.length / 2 ∧ ∀ row ∈ out, row.length = w / 2) := by
  refine ⟨?_, ?_, ?_, ?_, ?_, ?_⟩
  · rw [grayscale]
    exact map_map_rect _ img w hrect
  · rw [invert]
    exact map_map_rect _ img w hrect
  · rw [contrast]
    exact map_map_rect _ img w hrect
  · intro out hout
    cases himg : img with
    | nil =>
      rw [himg] at hout
      simp [blur, rowZeroLen] at hout
    | cons r0 tl =>
      have hne : img ≠ [] := by rw [himg]; simp
      rw [blur, rowZeroLen_of_rect hrect hne] at hout
      rw [← Option.some.inj hout]
      constructor
      · simp [idxMap, idxMapFrom_length, himg]
      · intro row hrow
        obtain ⟨i, hi, hEq⟩ := mem_idxMapFrom hrow
        rw [hEq]
        simp [idxMap, idxMapFrom_length]
        exact hrect img[i] (List.getElem_mem hi)
  · intro out hout
    cases himg : img with
    | nil =>
      rw [himg] at hout
      simp [mirror, rowZeroLen] at hout
    | cons r0 tl =>
      have hne : img ≠ [] := by rw [himg]; simp
      rw [mirror, rowZeroLen_of_rect hrect hne] at hout
      have hif : (if w < 5 then none else some (img.map List.reverse)) = some out := hout
      by_cases h5 : w < 5
      · rw [if_pos h5] at hif
        simp at hif
      · rw [if_neg h5] at hif
        rw [← Option.some.inj hif]
        constructor
        · simp [himg]
        · intro row hrow
          obtain ⟨r, hr, hEq⟩ := List.mem_map.1 hrow
          rw [← hEq]
          simp [hrect r hr]
  · intro out hout
    cases himg : img with
    | nil =>
      rw [himg] at hout
      simp [compress, rowZeroLen] at hout
    | cons r0 tl =>
      have hne : img ≠ [] := by rw [himg]; simp
      rw [compress, rowZeroLen_of_rect hrect hne] at hout
      rw [← Option.some.inj hout]
      constructor
      · simp [himg]
      · intro row hrow
        obtain ⟨i, hi, hEq⟩ := List.mem_map.1 hrow
        rw [← hEq]
        simp

/-- Witness for C4 at the concrete 3x3 buffer img3x3. -/
theorem blur_interior_box_average_witness :
    ∃ out, blur img3x3 = some out ∧ out.length = img3x3.length ∧
      (∀ row ∈ out, row.length = 3) ∧
      (∀ i j, 1 ≤ i → i + 1 < img3x3.length → 1 ≤ j → j + 1 < 3 →
        px out i j = ⟨box3sum RGB.r img3x3 i j / 9, box3sum RGB.g img3x3 i j / 9,
                      box3sum RGB.b img3x3 i j / 9⟩) ∧
      (∀ i j, i < img3x3.length → j < 3 →
        ¬(1 ≤ i ∧ i + 1 < img3x3.length ∧ 1 ≤ j ∧ j + 1 < 3) →
        px out i j = px img3x3 i j) :=
  blur_interior_box_average img3x3 3 (by decide) (by decide) (by decide) (by decide)

/-- Witness for C5 at the concrete 4x4 buffer img4x4, together with the
    evaluated output: pixel (0,0) is input (1,1) and pixel (1,1) is
    input (3,3). -/
theorem compress_keeps_odd_indices_witness :
    (∃ out, compress img4x4 = some out ∧ out.length = img4x4.length / 2 ∧
      (∀ row ∈ out, row.length = 4 / 2) ∧
      (∀ i j, i < img4x4.length / 2 → j < 4 / 2 →
        px out i j = px img4x4 (2 * i + 1) (2 * j + 1))) ∧
    compress img4x4 = some [[⟨11, 1, 1⟩, ⟨13, 3, 3⟩], [⟨31, 1, 1⟩, ⟨33, 3, 3⟩]] :=
  ⟨compress_keeps_odd_indices img4x4 4 (by decide) (by decide) (by decide), rfl⟩

/-- Witness for C9 at the concrete 1x5 buffer img1x5. -/
theorem transforms_preserve_rectangular_witness :
    ((grayscale img1x5).length = img1x5.length ∧ ∀ row ∈ grayscale img1x5, row.length = 5) ∧
    ((invert img1x5).length = img1x5.length ∧ ∀ row ∈ invert img1x5, row.length = 5) ∧
    ((contrast img1x5).length = img1x5.length ∧ ∀ row ∈ contrast img1x5, row.length = 5) ∧
    (∀ out, blur img1x5 = some out → out.length = img1x5.length ∧ ∀ row ∈ out, row.length = 5) ∧
    (∀ out, mirror img1x5 = some out → out.length = img1x5.length ∧ ∀ row ∈ out, row.length = 5) ∧
    (∀ out, compress img1x5 = some out →
      out.length = img1x5.length / 2 ∧ ∀ row ∈ out, row.length = 5 / 2) :=
  transforms_preserve_rectangular img1x5 5 (by decide)
